import Mathlib

/-!
Verification of the prime-gap toolchain (combined sieve and statistics
estimator) against its natural-language specification.

The development shallowly embeds the relevant parts of the two programs:

* combined_sieve.cpp : the sieve entry point prime_gap_parallel, the Phase A
  crossoff method2_small_primes, the unknown-file writer save_unknowns_method2,
  and the CTRL+C cancellation logic;
* the statistics program (gap_stats) : the main dispatch, the record table
  filter load_possible_records, the extended-gap probability tables built by
  prob_extended_gap, the unknown-line reader read_unknown_line, and the per-m
  estimator fold of run_gap_file.

Machine integers are modelled as Nat or Int with explicit reductions where
overflow or conversions matter; floating point quantities are modelled as
exact rationals, with the float NaN modelled by the none case of Option.
All definitions are executable so that theorems can be checked on concrete
inputs by evaluation.
-/

set_option maxRecDepth 20000

namespace PrimeGapClaims

/-! ## Statistics program entry point (gap_stats main) -/

inductive StatsDispatch where
  | usage
  | alreadyProcessed
  | probRecordVsPlimit
  | primeGapStats
deriving DecidableEq

/-- Model of the statistics program main: after the usage check and the
already-processed check, the single-m reporting path is taken only when
config.minc == 1 and config.mstart != 1; otherwise prime_gap_stats runs. -/
def stats_main (valid save_unknowns already_processed : Bool)
    (minc mstart : Nat) : StatsDispatch :=
  if valid = false then StatsDispatch.usage
  else if save_unknowns && already_processed then StatsDispatch.alreadyProcessed
  else if minc == 1 && mstart != 1 then StatsDispatch.probRecordVsPlimit
  else StatsDispatch.primeGapStats

/-! ## CTRL+C cancellation (combined_sieve.cpp) -/

structure SieveConfig where
  max_prime : Nat
  unknown_filename : String
  save_unknowns : Bool
deriving DecidableEq

inductive CancelAction where
  | exitProcess (code : Nat)
  | breakAndSave (cfg : SieveConfig)
  | continueSieving
deriving DecidableEq

/-- Model of the cancellation check performed at a print-interval boundary of
the large-prime loop of prime_gap_parallel: when the cancel flag is set and
the current prime is not the last prime, primes below one million exit with
code 2, otherwise the cached filename is cleared, max_prime is truncated down
to a multiple of one million, and the loop is left (the file is then saved). -/
def cancel_check (g_control_c : Bool) (prime LAST_PRIME : Nat)
    (cfg : SieveConfig) : CancelAction :=
  if g_control_c && prime != LAST_PRIME then
    if prime < 1000000 then CancelAction.exitProcess 2
    else CancelAction.breakAndSave
      (SieveConfig.mk (prime - prime % 1000000) "" cfg.save_unknowns)
  else CancelAction.continueSieving

inductive SignalResult where
  | exitProcess (code : Nat)
  | setFlag
deriving DecidableEq

/-- Model of signal_callback_handler: a second CTRL+C exits with code 2,
the first one only sets the global flag. -/
def signal_callback_handler (g_control_c : Bool) : SignalResult :=
  if g_control_c then SignalResult.exitProcess 2 else SignalResult.setFlag

/-- After the large-prime loop of prime_gap_parallel, save_unknowns_method2
and insert_range_db both run exactly when config.save_unknowns is set.
The pair records (unknown file written, range row inserted). -/
def post_loop_saves (cfg : SieveConfig) : Bool × Bool :=
  (cfg.save_unknowns, cfg.save_unknowns)

/-! ## Wheel residue maps of the extended-gap tables (prob_extended_gap) -/

/-- Wheel used by the extended-gap tables: the product of the primes among
{2, 3, 5, 7} that divide d (the local variable wheel in prob_extended_gap,
stored as gap_probs.wheel_d). -/
def calc_wheel_d (d : Nat) : Nat :=
  (List.filter (fun p => d % p == 0) [2, 3, 5, 7]).foldl (fun a p => a * p) 1

/-- Keys inserted into the map coprime_ms (and likewise into
extended_record_high and extended_extended_record): residues m below the
wheel that survive the minc == 1 fast-path filter and are coprime to the
wheel. -/
def coprime_ms_keys (wheel minc mstart : Nat) : List Nat :=
  (List.range wheel).filter (fun m =>
    (!(minc == 1 && mstart % wheel != m && mstart % wheel != wheel - m)) &&
    Nat.gcd m wheel == 1)

/-! ## prime_gap_parallel control flow -/

inductive RunOutcome where
  | exited (code : Nat) (unknown_file_written : Bool) (range_row_inserted : Bool)
  | completed (unknown_file_written : Bool) (range_row_inserted : Bool)
deriving DecidableEq

/-- The list valid_mi computed at the start of prime_gap_parallel: the mi
below M_inc with gcd(M_start + mi, D) == 1. -/
def valid_mi (M_start M_inc D : Nat) : List Nat :=
  (List.range M_inc).filter (fun mi => Nat.gcd (M_start + mi) D == 1)

/-- Control-flow skeleton of prime_gap_parallel: after the reindex setup, the
valid_mi list is split into THREADS = 1 slices, each slice is run through
method2_small_primes (Phase A), and then the function unconditionally calls
exit(1) before the medium-prime and large-prime phases, before
save_unknowns_method2 and before insert_range_db.  The second component
records how many valid m were handled by Phase A. -/
def prime_gap_parallel_outcome (M_start M_inc D : Nat) : RunOutcome × Nat :=
  let vmi := valid_mi M_start M_inc D
  let split := [vmi]
  (RunOutcome.exited 1 false false, (split.map List.length).foldl (fun a b => a + b) 0)

/-- Claim C1 (code bug): for the configuration of the end-to-end scenario
(P = 503, D = 2310, M0 = 1, dM = 1000) with save_unknowns set and method1
not selected, prime_gap_parallel does not run all three phases and exit 0:
it processes the 207 valid m in Phase A and then exits with code 1, with no
unknown file written and no range row inserted. -/
theorem C1_sieve_exits_one :
    prime_gap_parallel_outcome 1 1000 2310 = (RunOutcome.exited 1 false false, 207) ∧
    (∀ w r, RunOutcome.exited 1 false false ≠ RunOutcome.completed w r) := by
  constructor
  · decide
  · intro w r h
    cases h

/-- Claim C6 (code bug): with D = 1 the wheel is 1, the only key inserted in
the residue maps of prob_extended_gap is 0, and the prev-side lookups (key
wheel - m in prob_extended_gap for its only processed residue m = 0, and key
wheel_d - (m mod wheel_d) = 1 in run_gap_file for any m) are absent from the
maps, so std::map::at throws and the estimator aborts instead of completing. -/
theorem C6_wheel_one_lookup_fails :
    calc_wheel_d 1 = 1 ∧
    coprime_ms_keys 1 2 5 = [0] ∧
    (coprime_ms_keys 1 2 5).contains (1 - 0) = false ∧
    (coprime_ms_keys 1 2 5).contains (calc_wheel_d 1 - 5 % calc_wheel_d 1) = false := by
  decide

/-- Claim C9 (counterexample): a valid configuration with minc = 1 but
mstart = 1 dispatches to prime_gap_stats, not to prob_record_vs_plimit. -/
theorem C9_mstart_one_not_plimit :
    stats_main true true false 1 1 = StatsDispatch.primeGapStats ∧
    StatsDispatch.primeGapStats ≠ StatsDispatch.probRecordVsPlimit := by
  decide

/-- Claim C9 (amended): for every valid configuration with minc = 1 and
mstart different from 1 that passes the already-processed check, main
dispatches to the prob_record_vs_plimit reporting path. -/
theorem C9_single_m_dispatch (sv ap : Bool) (minc mstart : Nat)
    (h1 : minc = 1) (h2 : mstart ≠ 1) (h3 : ¬(sv = true ∧ ap = true)) :
    stats_main true sv ap minc mstart = StatsDispatch.probRecordVsPlimit := by
  subst h1
  have hsa : (sv && ap) = false := by
    cases sv <;> cases ap <;> simp_all
  have hm : (mstart != 1) = true := by
    simpa using h2
  simp [stats_main, hsa, hm]

/-- Witness for C9_single_m_dispatch at minc = 1, mstart = 5. -/
theorem C9_single_m_dispatch_witness :
    stats_main true true false 1 5 = StatsDispatch.probRecordVsPlimit :=
  C9_single_m_dispatch true false 1 5 rfl (by decide) (by simp)

/-- Claim C8 (counterexample): a first cancel signal observed at a
print-interval boundary where the prime is below one million (possible in the
large-prime phase, whose threshold can be far below one million) terminates
the process with exit code 2 instead of trimming max_prime and saving. -/
theorem C8_small_prime_exit2 :
    cancel_check true 500000 999999937 (SieveConfig.mk 1000000000 "cache" true) =
      CancelAction.exitProcess 2 ∧
    (∀ cfg, CancelAction.exitProcess 2 ≠ CancelAction.breakAndSave cfg) := by
  constructor
  · rfl
  · intro cfg h
    cases h

/-- Claim C8 (amended): when the first cancel signal is observed at a
print-interval boundary with prime at least one million (and not the last
prime), the sieve truncates max_prime to a multiple of one million not
exceeding its original value, clears the cached unknown filename and breaks;
the unknown file is then saved (save_unknowns is set), and a second cancel
signal terminates the process with exit code 2. -/
theorem C8_cancel_behavior (prime LAST MP : Nat) (fn : String)
    (h1 : 1000000 ≤ prime) (h2 : prime ≠ LAST) (h3 : prime ≤ MP) :
    ∃ cfg2,
      cancel_check true prime LAST (SieveConfig.mk MP fn true) =
        CancelAction.breakAndSave cfg2 ∧
      cfg2.max_prime % 1000000 = 0 ∧
      cfg2.max_prime ≤ MP ∧
      cfg2.unknown_filename = "" ∧
      post_loop_saves cfg2 = (true, true) ∧
      signal_callback_handler true = SignalResult.exitProcess 2 := by
  refine ⟨SieveConfig.mk (prime - prime % 1000000) "" true, ?_, ?_, ?_, rfl, rfl, rfl⟩
  · have hne : (prime != LAST) = true := by simpa using h2
    have hnl : ¬(prime < 1000000) := by omega
    simp [cancel_check, hne, hnl]
  · show (prime - prime % 1000000) % 1000000 = 0
    omega
  · show prime - prime % 1000000 ≤ MP
    omega

/-- Witness for C8_cancel_behavior at prime = 2000003. -/
theorem C8_cancel_behavior_witness :
    (1000000 ≤ 2000003) ∧
    ∃ cfg2,
      cancel_check true 2000003 999999937 (SieveConfig.mk 10000000000 "f" true) =
        CancelAction.breakAndSave cfg2 ∧
      cfg2.max_prime % 1000000 = 0 ∧
      cfg2.max_prime ≤ 10000000000 ∧
      cfg2.unknown_filename = "" ∧
      post_loop_saves cfg2 = (true, true) ∧
      signal_callback_handler true = SignalResult.exitProcess 2 :=
  ⟨by decide,
   C8_cancel_behavior 2000003 999999937 10000000000 "f"
     (by decide) (by decide) (by decide)⟩

end PrimeGapClaims

namespace PrimeGapClaims

/-! ## Phase A crossoff (method2_small_primes) -/

/-- The offsets start, start + step, start + 2 step, ... that lie below
bound (the crossoff for-loop). -/
def arithUntil (start step bound : Nat) : List Nat :=
  List.range' start ((bound - start + step - 1) / step) step

theorem mem_arithUntil (start step bound x : Nat) (hs : 0 < step) :
    x ∈ arithUntil start step bound ↔
      (start ≤ x ∧ x < bound ∧ step ∣ (x - start)) := by
  unfold arithUntil
  rw [List.mem_range']
  constructor
  · rintro ⟨i, hi, rfl⟩
    set n := (bound - start + step - 1) / step with hn
    have h1 : step * (i + 1) ≤ step * n := Nat.mul_le_mul_left step hi
    have h2 : n * step ≤ bound - start + step - 1 := Nat.div_mul_le_self _ _
    have h3 : step * n = n * step := Nat.mul_comm _ _
    have h4 : step * (i + 1) = step * i + step := by ring
    refine ⟨Nat.le_add_right _ _, ?_, ⟨i, Nat.add_sub_cancel_left start (step * i)⟩⟩
    omega
  · rintro ⟨h1, h2, k, hk⟩
    refine ⟨k, ?_, by omega⟩
    set n := (bound - start + step - 1) / step with hn
    by_contra hkn
    have hnk : n ≤ k := by omega
    have h5 : step * n ≤ step * k := Nat.mul_le_mul_left step hnk
    have h6 : step * n + (bound - start + step - 1) % step = bound - start + step - 1 :=
      Nat.div_add_mod _ _
    have h7 : (bound - start + step - 1) % step < step := Nat.mod_lt _ hs
    omega

/-- The value flip computed by method2_small_primes: modulo + p minus
(SL + 1) mod p, reduced below p once, where modulo = (base_r * m) mod p. -/
def m2sp_flip (SL p base_r m : Nat) : Nat :=
  if p ≤ (base_r * m) % p + p - (SL + 1) % p
  then (base_r * m) % p + p - (SL + 1) % p - p
  else (base_r * m) % p + p - (SL + 1) % p

/-- The value first computed by method2_small_primes for one (m, prime)
pair: first = p - flip - 1. -/
def m2sp_first (SL p base_r m : Nat) : Nat :=
  p - m2sp_flip SL p base_r m - 1

/-- The parity test of method2_small_primes deciding whether the first hit
offset corresponds to an even endpoint (already composite); in that case the
crossoff starts one multiple later. -/
def m2sp_firstIsEven (SL D m first : Nat) : Bool :=
  let centerOdd := D % 2 == 0 && m % 2 == 1
  let lowIsEven := centerOdd == (SL % 2 == 1)
  let evenFromLow := first % 2 == 0
  lowIsEven == evenFromLow

/-- The starting offset actually used by the crossoff loop: for primes above
2 the start is pushed by one multiple when the first hit is even. -/
def m2sp_first_adj (SL D p base_r m : Nat) : Nat :=
  if m2sp_firstIsEven SL D m (m2sp_first SL p base_r m)
  then m2sp_first SL p base_r m + p
  else m2sp_first SL p base_r m

/-- The offsets crossed off by method2_small_primes for one (m, prime) pair:
when first lands inside the sieve interval, the loop steps by shift, where
shift is doubled (shift = 2 p) for every prime above 2, and the start is
adjusted past even endpoints; for p = 2 the stride stays p. -/
def m2sp_offsets (SL D p base_r m : Nat) : List Nat :=
  let SI := 2 * SL + 1
  let first := m2sp_first SL p base_r m
  if first < SI then
    if 2 < p then
      arithUntil (if m2sp_firstIsEven SL D m first then first + p else first) (2 * p) SI
    else
      arithUntil first p SI
  else []

/-- The crossoff sequence described by the specification sentence: first,
first + shift, first + 2 shift, ... while below 2 SL + 1 with shift = p when
K is even and shift = 2 p when K is odd.  Stated from the words of the
specification. -/
def claimed_crossoff (K_even : Bool) (p first SL : Nat) : List Nat :=
  arithUntil first (if K_even then p else 2 * p) (2 * SL + 1)

theorem m2sp_flip_lt (SL p base_r m : Nat) (hp : 0 < p) :
    m2sp_flip SL p base_r m < p := by
  unfold m2sp_flip
  have h1 : (base_r * m) % p < p := Nat.mod_lt _ hp
  have h2 : (SL + 1) % p < p := Nat.mod_lt _ hp
  split <;> omega

theorem m2sp_first_lt (SL p base_r m : Nat) (hp : 0 < p) :
    m2sp_first SL p base_r m < p := by
  unfold m2sp_first
  have := m2sp_flip_lt SL p base_r m hp
  omega

theorem m2sp_first_cong (SL p base_r m : Nat) (hp : 0 < p) :
    (base_r * m + m2sp_first SL p base_r m + 1) % p = (SL + 1) % p := by
  have h1 : (base_r * m) % p < p := Nat.mod_lt _ hp
  have h2 : (SL + 1) % p < p := Nat.mod_lt _ hp
  have hflip : m2sp_flip SL p base_r m < p := m2sp_flip_lt SL p base_r m hp
  have hred : (base_r * m + m2sp_first SL p base_r m + 1) % p =
      ((base_r * m) % p + (m2sp_first SL p base_r m + 1)) % p := by
    rw [Nat.add_assoc, Nat.mod_add_mod]
  rw [hred]
  unfold m2sp_first
  unfold m2sp_flip at hflip ⊢
  set mo := (base_r * m) % p with hmo
  set s1 := (SL + 1) % p with hs1
  rcases le_or_lt p (mo + p - s1) with hc | hc
  · have hle : s1 ≤ mo := by omega
    have hval : mo + (p - (mo + p - s1 - p) - 1 + 1) = p + s1 := by
      rw [if_pos hc] at hflip
      omega
    rw [if_pos hc, hval, Nat.add_comm p s1, Nat.add_mod_right]
    exact Nat.mod_eq_of_lt h2
  · have hgt : mo < s1 := by omega
    have hval : mo + (p - (mo + p - s1) - 1 + 1) = s1 := by
      rw [if_neg (by omega)] at hflip
      omega
    rw [if_neg (by omega), hval]
    exact Nat.mod_eq_of_lt h2

end PrimeGapClaims

namespace PrimeGapClaims

/-- Claim C5 (amended): in Phase A, for every processed prime p (all of which
exceed 2: the prime 2 is eliminated by the wheel or by coprime_composite),
the crossoff visits exactly the offsets below 2 SL + 1 that lie at a multiple
of 2 p above the parity-adjusted first offset — the stride is 2 p regardless
of the parity of K — and every visited offset x satisfies
(base_r * m + x) mod p = SL mod p, i.e. p divides m K - SL + x. -/
theorem C5_crossoff_stride (SL D p base_r m : Nat) (hp : 2 < p) :
    (∀ x, x ∈ m2sp_offsets SL D p base_r m ↔
      (m2sp_first_adj SL D p base_r m ≤ x ∧ x < 2 * SL + 1 ∧
        (2 * p) ∣ (x - m2sp_first_adj SL D p base_r m))) ∧
    (∀ x ∈ m2sp_offsets SL D p base_r m, (base_r * m + x) % p = SL % p) := by
  have hp0 : 0 < p := by omega
  have hchar : ∀ x, x ∈ m2sp_offsets SL D p base_r m ↔
      (m2sp_first_adj SL D p base_r m ≤ x ∧ x < 2 * SL + 1 ∧
        (2 * p) ∣ (x - m2sp_first_adj SL D p base_r m)) := by
    intro x
    unfold m2sp_offsets m2sp_first_adj
    rcases Nat.lt_or_ge (m2sp_first SL p base_r m) (2 * SL + 1) with hf | hf
    · rw [if_pos hf, if_pos hp]
      exact mem_arithUntil _ _ _ _ (by omega)
    · rw [if_neg (by omega)]
      simp only [List.not_mem_nil, false_iff]
      rintro ⟨hle, hlt, _⟩
      have hadj : m2sp_first SL p base_r m ≤
          (if m2sp_firstIsEven SL D m (m2sp_first SL p base_r m)
           then m2sp_first SL p base_r m + p else m2sp_first SL p base_r m) := by
        split <;> omega
      omega
  refine ⟨hchar, ?_⟩
  intro x hx
  obtain ⟨hle, _, k, hk⟩ := (hchar x).mp hx
  have hx2 : x = 2 * p * k + m2sp_first_adj SL D p base_r m :=
    (Nat.sub_eq_iff_eq_add hle).mp hk
  have hcong := m2sp_first_cong SL p base_r m hp0
  have hbase : (base_r * m + m2sp_first SL p base_r m) % p = SL % p :=
    Nat.ModEq.add_right_cancel' 1 hcong
  unfold m2sp_first_adj at hx2
  rcases hev : m2sp_firstIsEven SL D m (m2sp_first SL p base_r m) with _ | _
  · rw [hev, if_neg (by simp)] at hx2
    have hsum : base_r * m + x =
        (base_r * m + m2sp_first SL p base_r m) + p * (2 * k) := by
      rw [hx2]; ring
    rw [hsum, Nat.add_mul_mod_self_left]
    exact hbase
  · rw [hev, if_pos rfl] at hx2
    have hsum : base_r * m + x =
        (base_r * m + m2sp_first SL p base_r m) + p * (2 * k + 1) := by
      rw [hx2]; ring
    rw [hsum, Nat.add_mul_mod_self_left]
    exact hbase

/-- Claim C5 (counterexample): for P = 3, D = 1 (so K = 3# = 6 is even),
SL = 10, m = 1 and the processed prime p = 5 with base_r = K mod 5 = 1, the
crossoff visits [9, 19] (stride 2 p = 10), but no derived first inside
[0, 2 SL] makes that the claimed stride-p progression: the claimed shift = p
when K is even contradicts the code. -/
theorem C5_stride_not_p :
    m2sp_offsets 10 1 5 1 1 = [9, 19] ∧
    (List.range 21).all (fun f => claimed_crossoff true 5 f 10 != [9, 19]) = true := by
  decide

/-- Witness for C5_crossoff_stride at the concrete pair (m = 1, p = 5). -/
theorem C5_crossoff_stride_witness :
    (2 < 5) ∧
    (19 ∈ m2sp_offsets 10 1 5 1 1 ↔
      (m2sp_first_adj 10 1 5 1 1 ≤ 19 ∧ 19 < 2 * 10 + 1 ∧
        (2 * 5) ∣ (19 - m2sp_first_adj 10 1 5 1 1))) :=
  ⟨by decide, (C5_crossoff_stride 10 1 5 1 1 (by decide)).1 19⟩

end PrimeGapClaims


namespace PrimeGapClaims

/-! ## load_possible_records (statistics program) -/


def MISSING_GAPS_LOW : Nat := 113326

/-- Model of std::is_sorted with the default comparator on the gap list:
true iff no adjacent pair is decreasing. -/
def is_sorted_asc : List Nat → Bool
  | [] => true
  | [_] => true
  | a :: b :: t => decide (a ≤ b) && is_sorted_asc (b :: t)

/-- The gap collecting loop of load_possible_records: g runs from 2 in steps
of 2 while below the table size len, breaking at the first gap of merit above
35, pushing the gaps with records[g] > N_log (push_back modelled by an
accumulator, returned reversed).  The fuel argument is always large enough to
never run out. -/
def load_records_go (rec : Nat → ℚ) (N_log : ℚ) (len : Nat) :
    Nat → Nat → List Nat → List Nat
  | 0, _, acc => acc.reverse
  | fuel + 1, g, acc =>
    if len ≤ g then acc.reverse
    else if 35 < (g : ℚ) / N_log then acc.reverse
    else if N_log < rec g then load_records_go rec N_log len fuel (g + 2) (g :: acc)
    else load_records_go rec N_log len fuel (g + 2) acc

/-- Model of load_possible_records: the collecting loop, then the sortedness
assertion and the assertion front() <= MISSING_GAPS_LOW (an assert failure
aborts, modelled by none; front() of an empty vector is undefined behaviour,
conservatively also modelled by none). -/
def load_possible_records (N_log : ℚ) (len : Nat) (rec : Nat → ℚ) : Option (List Nat) :=
  if is_sorted_asc (load_records_go rec N_log len len 2 []) = false then none
  else
    match load_records_go rec N_log len len 2 [] with
    | [] => none
    | g :: t => if g ≤ MISSING_GAPS_LOW then some (g :: t) else none

/-- The list the claim describes: in ascending order, exactly the even gaps
g ≥ 2 below the record table size with records[g] > N_log and merit at most
35.  Stated from the words of the specification. -/
def poss_record_gaps_spec (N_log : ℚ) (len : Nat) (rec : Nat → ℚ) : List Nat :=
  (List.range' 2 ((len - 1) / 2) 2).filter
    (fun g => decide (N_log < rec g) && decide ((g : ℚ) / N_log ≤ 35))

theorem load_records_go_eq (rec : Nat → ℚ) (N_log : ℚ) (len : Nat)
    (hN : 0 < N_log) :
    ∀ fuel g acc, (len - g + 1) / 2 ≤ fuel →
      load_records_go rec N_log len fuel g acc =
        acc.reverse ++ (List.range' g ((len - g + 1) / 2) 2).filter
          (fun x => decide (N_log < rec x) && decide ((x : ℚ) / N_log ≤ 35)) := by
  intro fuel
  induction fuel with
  | zero =>
    intro g acc hf
    have h0 : (len - g + 1) / 2 = 0 := by omega
    rw [h0]
    simp [load_records_go]
  | succ fuel ih =>
    intro g acc hf
    by_cases hlen : len ≤ g
    · have h0 : (len - g + 1) / 2 = 0 := by omega
      rw [h0]
      unfold load_records_go
      rw [if_pos hlen]
      simp
    · push_neg at hlen
      by_cases hmerit : 35 < (g : ℚ) / N_log
      · have hnil : (List.range' g ((len - g + 1) / 2) 2).filter
            (fun x => decide (N_log < rec x) && decide ((x : ℚ) / N_log ≤ 35)) = [] := by
          apply List.filter_eq_nil_iff.mpr
          intro x hx
          obtain ⟨i, -, rfl⟩ := List.mem_range'.mp hx
          have hle2 : (g : ℚ) ≤ ((g + 2 * i : ℕ) : ℚ) := by
            exact_mod_cast Nat.le_add_right g (2 * i)
          have hmono : (g : ℚ) / N_log ≤ (((g + 2 * i : ℕ) : ℚ)) / N_log := by gcongr
          simp only [Bool.and_eq_true, decide_eq_true_eq, not_and]
          intro _
          linarith
        rw [hnil]
        unfold load_records_go
        rw [if_neg (by omega), if_pos hmerit]
        simp
      · have hcnt : (len - g + 1) / 2 = ((len - (g + 2) + 1) / 2) + 1 := by omega
        rw [hcnt, List.range'_succ, List.filter_cons]
        unfold load_records_go
        rw [if_neg (by omega), if_neg hmerit]
        by_cases hrec : N_log < rec g
        · rw [if_pos hrec, ih (g + 2) (g :: acc) (by omega)]
          have hpred : (decide (N_log < rec g) && decide ((g : ℚ) / N_log ≤ 35)) = true := by
            simp [hrec, le_of_not_lt hmerit]
          rw [hpred]
          simp
        · rw [if_neg hrec, ih (g + 2) acc (by omega)]
          have hpred : (decide (N_log < rec g) && decide ((g : ℚ) / N_log ≤ 35)) = false := by
            simp [hrec]
          rw [hpred]
          simp

theorem is_sorted_asc_of_pairwise :
    ∀ l : List Nat, List.Pairwise (· ≤ ·) l → is_sorted_asc l = true := by
  intro l
  induction l with
  | nil => intro _; rfl
  | cons a t ih =>
    intro hp
    match t with
    | [] => rfl
    | b :: t2 =>
      have hab : a ≤ b := (List.pairwise_cons.mp hp).1 b (by simp)
      have ht : is_sorted_asc (b :: t2) = true := ih (List.pairwise_cons.mp hp).2
      unfold is_sorted_asc
      simp [hab, ht]

theorem poss_record_gaps_spec_pairwise (N_log : ℚ) (len : Nat) (rec : Nat → ℚ) :
    List.Pairwise (· ≤ ·) (poss_record_gaps_spec N_log len rec) := by
  have h1 : List.Pairwise (· < ·) (List.range' 2 ((len - 1) / 2) 2) :=
    List.pairwise_lt_range' 2 _ 2 (by omega)
  exact (h1.sublist (List.filter_sublist _)).imp le_of_lt

theorem load_possible_records_eq_spec (N_log : ℚ) (len : Nat) (rec : Nat → ℚ)
    (hN : 0 < N_log) :
    load_possible_records N_log len rec =
      (match poss_record_gaps_spec N_log len rec with
       | [] => none
       | g :: t => if g ≤ MISSING_GAPS_LOW then some (g :: t) else none) := by
  have hbridge := load_records_go_eq rec N_log len hN len 2 [] (by omega)
  have hcnt : (len - 2 + 1) / 2 = (len - 1) / 2 := by omega
  have hgo : load_records_go rec N_log len len 2 [] =
      poss_record_gaps_spec N_log len rec := by
    rw [hbridge, hcnt]
    rfl
  have hsorted : is_sorted_asc (load_records_go rec N_log len len 2 []) = true := by
    rw [hgo]
    exact is_sorted_asc_of_pairwise _ (poss_record_gaps_spec_pairwise N_log len rec)
  unfold load_possible_records
  rw [hgo] at hsorted ⊢
  simp [hsorted]

/-- Claim C7 (amended): for N_log > 0, load_possible_records computes exactly
the ascending list of even gaps g ≥ 2 with records[g] > N_log and merit at
most 35 (the loop break at the first merit above 35 agrees with the filter
because merit is monotone in g); the sortedness assertion always passes, and
the function returns that list when its smallest element is at most
MISSING_GAPS_LOW, but when the smallest element exceeds MISSING_GAPS_LOW the
assertion fails and the program aborts (modelled by none) — there is no
warning path; it also aborts when the list is empty. -/
theorem C7_possible_records (N_log : ℚ) (len : Nat) (rec : Nat → ℚ)
    (hN : 0 < N_log) :
    load_possible_records N_log len rec =
      (match poss_record_gaps_spec N_log len rec with
       | [] => none
       | g :: t => if g ≤ MISSING_GAPS_LOW then some (g :: t) else none) :=
  load_possible_records_eq_spec N_log len rec hN

def c7_big_records (g : Nat) : ℚ := if g = 113328 then 5000 else 0

theorem c7_big_spec : poss_record_gaps_spec 4000 113330 c7_big_records = [113328] := by
  unfold poss_record_gaps_spec
  have hlen : (113330 - 1) / 2 = 56664 := by norm_num
  rw [hlen, show (56664 : Nat) = 1 + 56663 from rfl, ← List.range'_append,
    List.filter_append]
  have h1 : (List.range' 2 56663 2).filter
      (fun g => decide ((4000 : ℚ) < c7_big_records g) &&
        decide ((g : ℚ) / 4000 ≤ 35)) = [] := by
    apply List.filter_eq_nil_iff.mpr
    intro x hx
    obtain ⟨i, hi, rfl⟩ := List.mem_range'.mp hx
    have hne : 2 + 2 * i ≠ 113328 := by omega
    simp only [c7_big_records, if_neg hne, Bool.and_eq_true, decide_eq_true_eq, not_and]
    intro h
    norm_num at h
  have h2 : List.range' (2 + 2 * 56663) 1 2 = [113328] := rfl
  rw [h1, h2]
  have h3 : c7_big_records 113328 = 5000 := rfl
  simp only [List.filter, h3]
  norm_num

/-- Claim C7 (counterexample): a record table whose only qualifying gap is
113328 > MISSING_GAPS_LOW = 113326 (with N_log = 4000, so its merit is below
35): load_possible_records hits the failed assertion and aborts (none), it
does not return the list with a warning. -/
theorem C7_assert_aborts :
    load_possible_records 4000 113330 c7_big_records = none := by
  rw [load_possible_records_eq_spec 4000 113330 c7_big_records (by norm_num), c7_big_spec]
  norm_num [MISSING_GAPS_LOW]

def c7_small_records (g : Nat) : ℚ := if g = 4 then 200 else 0

/-- Witness for C7_possible_records: a small table whose only qualifying gap
is 4; the function returns some [4]. -/
theorem c7_small_spec : poss_record_gaps_spec 100 10 c7_small_records = [4] := by
  unfold poss_record_gaps_spec
  have h0 : List.range' 2 ((10 - 1) / 2) 2 = [2, 4, 6, 8] := rfl
  rw [h0]
  simp only [List.filter, c7_small_records]
  norm_num

/-- Witness for C7_possible_records: a small table whose only qualifying gap
is 4; the function returns some [4]. -/
theorem C7_possible_records_witness :
    (0 : ℚ) < 100 ∧ load_possible_records 100 10 c7_small_records = some [4] := by
  refine ⟨by norm_num, ?_⟩
  rw [C7_possible_records 100 10 c7_small_records (by norm_num), c7_small_spec]
  norm_num [MISSING_GAPS_LOW]

end PrimeGapClaims

namespace PrimeGapClaims

/-! ## The per-m estimator fold (run_gap_file) -/


def MISSING_GAPS_HIGH : Nat := 132928

/-- The float infinity marker GAP_INF = std::numeric_limits<float>::max()
used for absent record gaps, as an exact rational. -/
def GAP_INF : ℚ := (16777215 : ℚ) * 2 ^ 104

/-- The probability tables of the estimator (class ProbNth).  The two
per-residue maps are association lists keyed by the wheel residue. -/
structure ProbNth where
  prime_nth_sieve : List ℚ
  great_nth_sieve : List ℚ
  combined_sieve : List ℚ
  wheel_d : Nat
  extended_record_high : List (Nat × List ℚ)
  extended_extended_record : List (Nat × ℚ)
  prob_greater_extended : ℚ

/-- nth_prob_or_zero: table lookup defaulting to zero past the end. -/
def nth_prob_or_zero (l : List ℚ) (n : Nat) : ℚ := l.getD n 0

/-- std::map::at modelled on an association list: none models the thrown
std::out_of_range when the key is absent. -/
def mapAt {α : Type} (l : List (Nat × α)) (k : Nat) : Option α :=
  (l.find? (fun kv => kv.1 == k)).map (fun kv => kv.2)

/-- Accumulator of the direct (both primes inside the sieve) double loop of
run_gap_file: prob_record, prob_is_missing_gap, prob_highmerit and the
histogram prob_gap_norm. -/
structure DirectAcc where
  prob_record : ℚ
  prob_missing : ℚ
  prob_highmerit : ℚ
  gap_norm : Nat → ℚ

/-- Body of the inner j loop of the direct contribution. -/
def direct_j_step (combined : List ℚ) (records : Nat → ℚ) (log_start_prime : ℚ)
    (min_record_gap min_gap_min_merit : Nat) (i gap_low : Nat)
    (high : List Nat) (acc : DirectAcc) (j : Nat) : DirectAcc :=
  let gap_high := high.getD j 0
  let gap := gap_low + gap_high
  let prob_this_gap := combined.getD (i + j) 0
  DirectAcc.mk
    (if min_record_gap ≤ gap ∧ log_start_prime < records gap
     then acc.prob_record + prob_this_gap else acc.prob_record)
    (if (min_record_gap ≤ gap ∧ log_start_prime < records gap) ∧
        (MISSING_GAPS_LOW ≤ gap ∧ gap ≤ MISSING_GAPS_HIGH ∧ records gap = GAP_INF)
     then acc.prob_missing + prob_this_gap else acc.prob_missing)
    (if min_gap_min_merit ≤ gap
     then acc.prob_highmerit + prob_this_gap else acc.prob_highmerit)
    (fun x => if x = gap then acc.gap_norm x + prob_this_gap else acc.gap_norm x)

/-- The sliding while loop decreasing min_j while
gap_low + high[min_j - 1] >= min_interesting_gap. -/
def dec_min_j (gap_low : Nat) (high : List Nat) (min_interesting : Nat) : Nat → Nat
  | 0 => 0
  | mj + 1 =>
    if min_interesting ≤ gap_low + high.getD mj 0
    then dec_min_j gap_low high min_interesting mj
    else mj + 1

/-- Body of the outer i loop of the direct contribution, threading min_j. -/
def direct_i_step (combined : List ℚ) (records : Nat → ℚ) (log_start_prime : ℚ)
    (min_record_gap min_gap_min_merit SL : Nat) (low high : List Nat)
    (st : Nat × DirectAcc) (i : Nat) : Nat × DirectAcc :=
  let gap_low := low.getD i 0
  let mj := dec_min_j gap_low high (min min_gap_min_merit min_record_gap) st.1
  let max_j := min high.length (combined.length - i)
  let j0 := if 100000 ≤ SL then mj else 0
  (mj,
    (List.range' j0 (max_j - j0) 1).foldl
      (direct_j_step combined records log_start_prime min_record_gap min_gap_min_merit i gap_low high)
      st.2)

/-- The direct contribution of run_gap_file (both primes at most SL away). -/
def direct_loop (combined : List ℚ) (records : Nat → ℚ) (log_start_prime : ℚ)
    (min_record_gap min_gap_min_merit SL : Nat) (low high : List Nat) : DirectAcc :=
  ((List.range (min low.length combined.length)).foldl
    (direct_i_step combined records log_start_prime min_record_gap min_gap_min_merit SL low high)
    (high.length, DirectAcc.mk 0 0 0 (fun _ => 0))).2

/-- Accumulator of the extended contribution of run_gap_file. -/
structure ExtAcc where
  prob_record_extended : ℚ
  e_prev : ℚ
  e_next : ℚ
  prob_highmerit : ℚ
  gap_low_hist : Nat → ℚ
  gap_high_hist : Nat → ℚ

/-- Body of the extended loop of run_gap_file at index i, with the asserts on
prob_i and on the conditional probabilities modelled by none (abort). -/
def extended_step (prime_nth : List ℚ) (PPG PNG : ℚ) (erh erl : List ℚ)
    (min_side : Int) (low high : List Nat) (acc : ExtAcc) (i : Nat) : Option ExtAcc :=
  let prob_i := prime_nth.getD i 0
  if ¬(0 ≤ prob_i ∧ prob_i ≤ 1) then none
  else
    let step1 : Option ExtAcc :=
      if i < low.length then
        let gap_low := low.getD i 0
        let cp := erh.getD gap_low 0
        if ¬(0 ≤ cp ∧ cp < 1) then none
        else some (ExtAcc.mk
          (acc.prob_record_extended + prob_i * PNG * cp)
          (acc.e_prev + (gap_low : ℚ) * prob_i)
          acc.e_next
          (if min_side ≤ (gap_low : Int) then acc.prob_highmerit + prob_i * PNG
           else acc.prob_highmerit)
          (fun x => if x = gap_low then acc.gap_low_hist x + prob_i else acc.gap_low_hist x)
          acc.gap_high_hist)
      else some acc
    match step1 with
    | none => none
    | some a2 =>
      if i < high.length then
        let gap_high := high.getD i 0
        let cp := erl.getD gap_high 0
        if ¬(0 ≤ cp ∧ cp < 1) then none
        else some (ExtAcc.mk
          (a2.prob_record_extended + prob_i * PPG * cp)
          a2.e_prev
          (a2.e_next + (gap_high : ℚ) * prob_i)
          (if min_side ≤ (gap_high : Int) then a2.prob_highmerit + prob_i * PPG
           else a2.prob_highmerit)
          a2.gap_low_hist
          (fun x => if x = gap_high then a2.gap_high_hist x + prob_i else a2.gap_high_hist x))
      else some a2

/-- The extended loop of run_gap_file over the index list. -/
def extended_loop (prime_nth : List ℚ) (PPG PNG : ℚ) (erh erl : List ℚ)
    (min_side : Int) (low high : List Nat) :
    List Nat → ExtAcc → Option ExtAcc
  | [], acc => some acc
  | i :: rest, acc =>
    match extended_step prime_nth PPG PNG erh erl min_side low high acc i with
    | none => none
    | some a => extended_loop prime_nth PPG PNG erh erl min_side low high rest a

/-- The per-m record emitted by run_gap_file. -/
structure MStats where
  e_prev : ℚ
  e_next : ℚ
  prob_seen : ℚ
  prob_record_combined : ℚ
  prob_missing : ℚ
  prob_highmerit : ℚ
deriving DecidableEq

/-- The per-m body of run_gap_file: greater-probabilities from the table
sizes, prob_seen, the direct double loop, the two extended-record map lookups
(std::map::at, aborting on a missing key), the extended loop, the extended
squared contribution, and the emitted record.  The gap histograms are folded
inside the accumulators; the emitted fields are the ones stored per m. -/
def run_gap_file_one_m (gp : ProbNth) (records : Nat → ℚ) (log_start_prime : ℚ)
    (SL min_record_gap min_gap_min_merit : Nat) (m : Nat)
    (low high : List Nat) : Option MStats :=
  match mapAt gp.extended_record_high (m % gp.wheel_d) with
  | none => none
  | some erh =>
    match mapAt gp.extended_record_high (gp.wheel_d - m % gp.wheel_d) with
    | none => none
    | some erl =>
      match extended_loop gp.prime_nth_sieve
          (nth_prob_or_zero gp.great_nth_sieve low.length)
          (nth_prob_or_zero gp.great_nth_sieve high.length) erh erl
          ((min_gap_min_merit : Int) - (SL : Int)) low high
          (List.range (min gp.prime_nth_sieve.length (max low.length high.length)))
          (ExtAcc.mk 0 0 0
            (direct_loop gp.combined_sieve records log_start_prime
              min_record_gap min_gap_min_merit SL low high).prob_highmerit
            (fun _ => 0) (fun _ => 0)) with
      | none => none
      | some ea =>
        match mapAt gp.extended_extended_record (m % gp.wheel_d) with
        | none => none
        | some eer =>
          some (MStats.mk ea.e_prev ea.e_next
            ((1 - nth_prob_or_zero gp.great_nth_sieve low.length * gp.prob_greater_extended) *
              (1 - nth_prob_or_zero gp.great_nth_sieve high.length * gp.prob_greater_extended))
            ((direct_loop gp.combined_sieve records log_start_prime
                min_record_gap min_gap_min_merit SL low high).prob_record +
              ea.prob_record_extended +
              nth_prob_or_zero gp.great_nth_sieve high.length *
                nth_prob_or_zero gp.great_nth_sieve low.length * eer)
            (direct_loop gp.combined_sieve records log_start_prime
              min_record_gap min_gap_min_merit SL low high).prob_missing
            ea.prob_highmerit)

theorem run_gap_file_one_m_empty (gp : ProbNth) (records : Nat → ℚ)
    (log_start_prime : ℚ) (SL min_record_gap min_gap_min_merit m : Nat)
    (erh erl : List ℚ) (eer : ℚ)
    (h0 : nth_prob_or_zero gp.great_nth_sieve 0 = 1)
    (h1 : mapAt gp.extended_record_high (m % gp.wheel_d) = some erh)
    (h2 : mapAt gp.extended_record_high (gp.wheel_d - m % gp.wheel_d) = some erl)
    (h3 : mapAt gp.extended_extended_record (m % gp.wheel_d) = some eer) :
    run_gap_file_one_m gp records log_start_prime SL min_record_gap min_gap_min_merit m [] [] =
      some (MStats.mk 0 0
        ((1 - gp.prob_greater_extended) * (1 - gp.prob_greater_extended)) eer 0 0) := by
  have hd : direct_loop gp.combined_sieve records log_start_prime
      min_record_gap min_gap_min_merit SL [] [] = DirectAcc.mk 0 0 0 (fun _ => 0) := by
    unfold direct_loop
    simp
  unfold run_gap_file_one_m
  simp only [h1, h2, hd, List.length_nil, Nat.max_self, Nat.min_zero, List.range_zero,
    h0, extended_loop, h3, one_mul, zero_add]


/-- Claim C3 (amended): when the estimator processes an unknown line with
zero prev-side and zero next-side unknowns, it emits E[prev] = E[next] = 0
and a prob_record equal to the extended-squared contribution
PROB_PREV_GREATER * PROB_NEXT_GREATER * extended_extended_record[m mod W]
alone (both greater probabilities being great_nth_sieve[0] = 1), but
prob_seen = (1 - prob_greater_extended)^2, which is zero only when
prob_greater_extended = 1 — not zero in general. -/
theorem C3_empty_line_outputs (gp : ProbNth) (records : Nat → ℚ)
    (log_start_prime : ℚ) (SL min_record_gap min_gap_min_merit m : Nat)
    (erh erl : List ℚ) (eer : ℚ)
    (h0 : nth_prob_or_zero gp.great_nth_sieve 0 = 1)
    (h1 : mapAt gp.extended_record_high (m % gp.wheel_d) = some erh)
    (h2 : mapAt gp.extended_record_high (gp.wheel_d - m % gp.wheel_d) = some erl)
    (h3 : mapAt gp.extended_extended_record (m % gp.wheel_d) = some eer) :
    run_gap_file_one_m gp records log_start_prime SL min_record_gap min_gap_min_merit m [] [] =
      some (MStats.mk 0 0
        ((1 - gp.prob_greater_extended) * (1 - gp.prob_greater_extended)) eer 0 0) :=
  run_gap_file_one_m_empty gp records log_start_prime SL min_record_gap
    min_gap_min_merit m erh erl eer h0 h1 h2 h3

def c3_probs : ProbNth :=
  ProbNth.mk [] [1] [] 2 [(1, [])] [(1, 3/8)] (1/2)

/-- Claim C3 (counterexample): concrete tables with
prob_greater_extended = 1/2 and extended_extended_record[1] = 3/8: on an
unknown line with no unknowns on either side the estimator emits
prob_seen = 1/4, not 0 (while prob_record is indeed the extended-squared
contribution 3/8 alone and E[prev] = 0). -/
theorem C3_prob_seen_nonzero :
    (run_gap_file_one_m c3_probs (fun _ => 0) 0 10 5 5 1 [] []).map MStats.prob_seen =
      some (1 / 4) ∧
    ((1 / 4 : ℚ) ≠ 0) ∧
    (run_gap_file_one_m c3_probs (fun _ => 0) 0 10 5 5 1 [] []).map
      MStats.prob_record_combined = some (3 / 8) ∧
    (run_gap_file_one_m c3_probs (fun _ => 0) 0 10 5 5 1 [] []).map MStats.e_prev =
      some 0 := by
  have h := run_gap_file_one_m_empty c3_probs (fun _ => 0) 0 10 5 5 1 [] [] (3 / 8)
    rfl rfl rfl rfl
  rw [h]
  refine ⟨?_, by norm_num, ?_, ?_⟩
  · simp only [Option.map_some']
    norm_num [c3_probs]
  · rfl
  · rfl

def c3w_probs : ProbNth :=
  ProbNth.mk [] [1] [] 2 [(1, [])] [(1, 2 / 5)] (1 / 4)

/-- Witness for C3_empty_line_outputs at concrete tables. -/
theorem C3_empty_line_outputs_witness :
    run_gap_file_one_m c3w_probs (fun _ => 0) 0 10 5 5 1 [] [] =
      some (MStats.mk 0 0
        ((1 - c3w_probs.prob_greater_extended) * (1 - c3w_probs.prob_greater_extended))
        (2 / 5) 0 0) :=
  C3_empty_line_outputs c3w_probs (fun _ => 0) 0 10 5 5 1 [] [] (2 / 5) rfl rfl rfl rfl

/-- run_gap_file over the valid-m list: one unknown line per m (its offset
lists given as input), accumulating probs_record (the per-m
prob_record_combined) by push_back in m order. -/
def run_gap_file_probs (gp : ProbNth) (records : Nat → ℚ) (mlog : Nat → ℚ)
    (SL min_record_gap min_gap_min_merit : Nat) :
    List (Nat × List Nat × List Nat) → Option (List ℚ)
  | [] => some []
  | (m, low, high) :: rest =>
    match run_gap_file_one_m gp records (mlog m) SL min_record_gap min_gap_min_merit
        m low high with
    | none => none
    | some s =>
      match run_gap_file_probs gp records mlog SL min_record_gap min_gap_min_merit rest with
      | none => none
      | some ps => some (s.prob_record_combined :: ps)

/-- Model of std::is_sorted(begin, end, std::greater) on probs_record:
true iff the vector is non-increasing (vacuously true below two elements). -/
def is_sorted_desc : List ℚ → Bool
  | [] => true
  | [_] => true
  | a :: b :: t => decide (b ≤ a) && is_sorted_desc (b :: t)

/-- The post-processing assertion of prime_gap_stats:
assert(!is_sorted(probs_record.begin(), probs_record.end(), greater)). -/
def probs_record_assert_ok (probs : List ℚ) : Bool := !(is_sorted_desc probs)

/-- Claim C10 (amended): with exactly one valid m, probs_record is a
singleton, std::is_sorted with greater is vacuously true on it, so the
assertion !is_sorted always fails and prime_gap_stats aborts — for any
tables, any record table and any unknown line. -/
theorem C10_singleton_sorted_aborts (gp : ProbNth) (records : Nat → ℚ)
    (mlog : Nat → ℚ) (SL min_record_gap min_gap_min_merit m : Nat)
    (low high : List Nat) (probs : List ℚ)
    (h : run_gap_file_probs gp records mlog SL min_record_gap min_gap_min_merit
      [(m, low, high)] = some probs) :
    probs_record_assert_ok probs = false := by
  rcases hone : run_gap_file_one_m gp records (mlog m) SL min_record_gap
      min_gap_min_merit m low high with _ | s
  · unfold run_gap_file_probs at h
    rw [hone] at h
    exact absurd h (by simp)
  · unfold run_gap_file_probs at h
    rw [hone] at h
    simp only [run_gap_file_probs] at h
    have hp : probs = [s.prob_record_combined] := by
      simpa using h.symm
    rw [hp]
    rfl

def c10x_probs : ProbNth :=
  ProbNth.mk [] [1] [] 2 [(1, [])] [(1, 7 / 16)] (1 / 5)

/-- Claim C10 (counterexample): a run of prime_gap_stats over exactly one
valid m (an unknown line with empty sides and concrete tables) produces
probs_record = [7/16], which is sorted in descending order, so the assertion
fails and the program aborts at that check. -/
theorem C10_single_m_abort :
    run_gap_file_probs c10x_probs (fun _ => 0) (fun _ => 0) 10 5 5 [(1, [], [])] =
      some [7 / 16] ∧
    probs_record_assert_ok [7 / 16] = false := by
  have h := run_gap_file_one_m_empty c10x_probs (fun _ => 0) 0 10 5 5 1 [] [] (7 / 16)
    rfl rfl rfl rfl
  constructor
  · simp only [run_gap_file_probs, h]
  · rfl

def c10w_probs : ProbNth :=
  ProbNth.mk [] [1] [] 2 [(1, [])] [(1, 5 / 8)] (1 / 3)

/-- Witness for C10_singleton_sorted_aborts at a concrete single-m run. -/
theorem C10_singleton_sorted_aborts_witness :
    ∃ probs,
      run_gap_file_probs c10w_probs (fun _ => 0) (fun _ => 0) 10 5 5 [(1, [], [])] =
        some probs ∧
      probs_record_assert_ok probs = false := by
  have h1 := run_gap_file_one_m_empty c10w_probs (fun _ => 0) 0 10 5 5 1 [] [] (5 / 8)
    rfl rfl rfl rfl
  have h2 : run_gap_file_probs c10w_probs (fun _ => 0) (fun _ => 0) 10 5 5
      [(1, [], [])] = some [5 / 8] := by
    simp only [run_gap_file_probs, h1]
  exact ⟨[5 / 8], h2,
    C10_singleton_sorted_aborts c10w_probs (fun _ => 0) (fun _ => 0) 10 5 5 1 [] []
      [5 / 8] h2⟩

end PrimeGapClaims

namespace PrimeGapClaims


/-! ## prob_extended_gap: the extended_record_high table -/

/-- Trial-division primality used to model get_sieve_primes. -/
def isPrimeNat (n : Nat) : Bool :=
  decide (2 ≤ n) && (List.range n).all (fun k => decide (k < 2) || !(n % k == 0))

/-- The primes up to P (K_primes = get_sieve_primes(P)). -/
def primesUpTo (P : Nat) : List Nat :=
  (List.range (P + 1)).filter isPrimeNat

/-- The array is_coprime of prob_extended_gap: position x survives iff no
prime up to P that does not divide d divides x (the sieve marks every
multiple of each such prime, starting at 0). -/
def ext_is_coprime (P d x : Nat) : Bool :=
  (primesUpTo P).all (fun p => d % p == 0 || !(x % p == 0))

/-- k_mod_p[p] of prob_extended_gap: the product of the K_primes not
dividing d, reduced mod p at every step. -/
def k_mod_p (P d p : Nat) : Nat :=
  ((primesUpTo P).filter (fun k => !(d % k == 0))).foldl (fun a k => (a * k) % p) 1

/-- The per-residue array is_coprime_m: is_coprime with the multiples of the
wheel primes dividing d marked off; the marking loop starts at p - first
with first = (m * k_mod_p[p]) mod p, so position x is marked iff x is not 0
and p divides x + m * k_mod_p[p]. -/
def ext_is_coprime_m (P d m x : Nat) : Bool :=
  ext_is_coprime P d x &&
  (([2, 3, 5, 7].filter (fun p => d % p == 0)).all
    (fun p => !(x != 0 && (x + m * k_mod_p P d p) % p == 0)))

/-- count_coprime_m[x]: the number of coprime positions in (SL, x]
(the partial sums computed from SL + 1 in prob_extended_gap). -/
def count_coprime (cm : Nat → Bool) (SL x : Nat) : Nat :=
  (List.range (x + 1)).countP (fun y => decide (SL < y) && cm y)

/-- prob_prime_nth_out as built by prob_nth_prime: the i-th entry is
(1 - p)^i * p (the loop pushes prob_still_prime * prob and multiplies
prob_still_prime by (1 - p)); N is its length as cut off at 1e-13. -/
def prob_nth_out (pq : ℚ) (N : Nat) : List ℚ :=
  (List.range N).map (fun i => (1 - pq) ^ i * pq)

/-- The uint32 subtraction dist = record_gap - gap_prev of the inner loop. -/
def dist32 (G g : Nat) : Nat := (G + 4294967296 - g) % 4294967296

/-- The inner loop of prob_extended_gap over poss_record_gaps for one
gap_prev = g: skip dist <= SL, break at dist >= 2 SL (the size of
is_coprime_m), skip non-coprime dist, break when the rank num_coprime
reaches the table length, else add prob_prime_nth_out[num_coprime]. -/
def record_sum (cm : Nat → Bool) (SL : Nat) (tbl : List ℚ) (g : Nat) :
    List Nat → ℚ
  | [] => 0
  | G :: rest =>
    if dist32 G g ≤ SL then record_sum cm SL tbl g rest
    else if 2 * SL ≤ dist32 G g then 0
    else if cm (dist32 G g) = false then record_sum cm SL tbl g rest
    else if tbl.length ≤ count_coprime cm SL (dist32 G g) then 0
    else tbl.getD (count_coprime cm SL (dist32 G g)) 0 + record_sum cm SL tbl g rest

/-- One entry prob_extended_record[g] built by prob_extended_gap for the
residue with coprime array cm and prev-side coprime array cmp: std::nan("")
(modelled none) when g is not coprime on the prev side, the initial 0.0 when
g + 2 SL is below the smallest record gap, else the summed probability. -/
def prob_extended_record_entry (cm cmp : Nat → Bool) (SL MIN_RECORD : Nat)
    (tbl : List ℚ) (poss : List Nat) (g : Nat) : Option ℚ :=
  if cmp g = false then none
  else if g + 2 * SL < MIN_RECORD then some 0
  else some (record_sum cm SL tbl g poss)

theorem prob_nth_out_length (pq : ℚ) (N : Nat) : (prob_nth_out pq N).length = N := by
  simp [prob_nth_out]

theorem prob_nth_out_getD (pq : ℚ) (N i : Nat) (h : i < N) :
    (prob_nth_out pq N).getD i 0 = (1 - pq) ^ i * pq := by
  rw [prob_nth_out, List.getD_eq_getElem?_getD, List.getElem?_map, List.getElem?_range h]
  rfl

theorem count_coprime_lt (cm : Nat → Bool) (SL x y : Nat)
    (hxy : x < y) (hSL : SL < y) (hcm : cm y = true) :
    count_coprime cm SL x < count_coprime cm SL y := by
  have h1 : count_coprime cm SL x ≤
      (List.range y).countP (fun z => decide (SL < z) && cm z) := by
    unfold count_coprime
    exact List.Sublist.countP_le _ (List.range_sublist.mpr (by omega))
  have h2 : count_coprime cm SL y =
      (List.range y).countP (fun z => decide (SL < z) && cm z) + 1 := by
    unfold count_coprime
    rw [List.range_succ, List.countP_append]
    simp [List.countP_cons, hSL, hcm]
  omega

theorem record_sum_bound (cm : Nat → Bool) (SL : Nat) (pq : ℚ) (N : Nat) (g : Nat)
    (hp0 : 0 < pq) (hp1 : pq < 1) (hSL : 3 * SL < 4294967296) (hg : g ≤ SL) :
    ∀ (l : List Nat), List.Pairwise (· < ·) l → (∀ G ∈ l, G < 4294967296) →
      ∀ n, (∀ G ∈ l, SL < dist32 G g → dist32 G g < 2 * SL →
              cm (dist32 G g) = true → n ≤ count_coprime cm SL (dist32 G g)) →
        0 ≤ record_sum cm SL (prob_nth_out pq N) g l ∧
          record_sum cm SL (prob_nth_out pq N) g l < (1 - pq) ^ n := by
  have h1p : (0 : ℚ) < 1 - pq := by linarith
  intro l
  induction l with
  | nil =>
    intro _ _ n _
    exact ⟨le_refl 0, pow_pos h1p n⟩
  | cons G rest ih =>
    intro hpw hbound n hcnt
    have hGrest : ∀ x ∈ rest, G < x := (List.pairwise_cons.mp hpw).1
    have hpwr : List.Pairwise (· < ·) rest := (List.pairwise_cons.mp hpw).2
    have hbr : ∀ x ∈ rest, x < 4294967296 := fun x hx => hbound x (List.mem_cons_of_mem _ hx)
    unfold record_sum
    by_cases c1 : dist32 G g ≤ SL
    · rw [if_pos c1]
      exact ih hpwr hbr n (fun x hx => hcnt x (List.mem_cons_of_mem _ hx))
    · rw [if_neg c1]
      by_cases c2 : 2 * SL ≤ dist32 G g
      · rw [if_pos c2]
        exact ⟨le_refl 0, pow_pos h1p n⟩
      · rw [if_neg c2]
        by_cases c3 : cm (dist32 G g) = false
        · rw [if_pos c3]
          exact ih hpwr hbr n (fun x hx => hcnt x (List.mem_cons_of_mem _ hx))
        · rw [if_neg c3]
          have hcm : cm (dist32 G g) = true := by
            cases h : cm (dist32 G g)
            · exact absurd h c3
            · rfl
          by_cases c4 : (prob_nth_out pq N).length ≤ count_coprime cm SL (dist32 G g)
          · rw [if_pos c4]
            exact ⟨le_refl 0, pow_pos h1p n⟩
          · rw [if_neg c4]
            push_neg at c1 c2 c4
            rw [prob_nth_out_length] at c4
            set nc := count_coprime cm SL (dist32 G g) with hnc
            have hn_le : n ≤ nc := hcnt G (List.mem_cons_self G rest) c1 c2 hcm
            -- the distance is an honest subtraction: no uint32 wrap here
            have hGb : G < 4294967296 := hbound G (List.mem_cons_self G rest)
            have hdist : dist32 G g = G - g ∧ g ≤ G := by
              unfold dist32 at c1 c2 ⊢
              omega
            -- every accepted element of the tail has a strictly larger rank
            have htail : ∀ x ∈ rest, SL < dist32 x g → dist32 x g < 2 * SL →
                cm (dist32 x g) = true → nc + 1 ≤ count_coprime cm SL (dist32 x g) := by
              intro x hx hx1 hx2 hxcm
              have hxb : x < 4294967296 := hbr x hx
              have hxd : dist32 x g = x - g ∧ g ≤ x := by
                unfold dist32 at hx1 hx2 ⊢
                omega
              have hGx : G < x := hGrest x hx
              have hlt : dist32 G g < dist32 x g := by
                rw [hdist.1, hxd.1]
                omega
              have := count_coprime_lt cm SL (dist32 G g) (dist32 x g) hlt hx1 hxcm
              omega
            obtain ⟨ihl, ihr⟩ := ih hpwr hbr (nc + 1) htail
            rw [prob_nth_out_getD pq N nc c4]
            have hterm : (0 : ℚ) ≤ (1 - pq) ^ nc * pq :=
              mul_nonneg (pow_nonneg (le_of_lt h1p) nc) (le_of_lt hp0)
            constructor
            · linarith
            · have hid : (1 - pq) ^ nc * pq + (1 - pq) ^ (nc + 1) = (1 - pq) ^ nc := by
                rw [pow_succ]
                ring
              have hmono : (1 - pq) ^ nc ≤ (1 - pq) ^ n :=
                pow_le_pow_of_le_one (le_of_lt h1p) (by linarith) hn_le
              linarith


/-- Claim C4 (amended): every entry extended_record_high[r][g] built by
prob_extended_gap for a prev-side coprime position g in [1, SL] is a
rational in [0, 1) — for any strictly ascending list of possible record gaps
(32-bit values) and the geometric prob_prime_nth_out table with 0 < p < 1 —
but for g in [1, SL] that is not coprime on the prev side the entry is
std::nan("") (modelled none), not a real number in [0, 1). -/
theorem C4_entry_bounds (P d m mprev SL MIN_RECORD : Nat) (pq : ℚ) (N : Nat)
    (poss : List Nat) (g : Nat)
    (hp0 : 0 < pq) (hp1 : pq < 1)
    (hposs : List.Pairwise (· < ·) poss) (hpossB : ∀ G ∈ poss, G < 4294967296)
    (hSL : 3 * SL < 4294967296) (hg : 1 ≤ g ∧ g ≤ SL) :
    (ext_is_coprime_m P d mprev g = false →
      prob_extended_record_entry (ext_is_coprime_m P d m) (ext_is_coprime_m P d mprev)
        SL MIN_RECORD (prob_nth_out pq N) poss g = none) ∧
    (ext_is_coprime_m P d mprev g = true →
      ∃ q, prob_extended_record_entry (ext_is_coprime_m P d m) (ext_is_coprime_m P d mprev)
        SL MIN_RECORD (prob_nth_out pq N) poss g = some q ∧ 0 ≤ q ∧ q < 1) := by
  constructor
  · intro hcmp
    unfold prob_extended_record_entry
    rw [hcmp]
    simp
  · intro hcmp
    unfold prob_extended_record_entry
    rw [hcmp]
    by_cases hmin : g + 2 * SL < MIN_RECORD
    · refine ⟨0, ?_, le_refl 0, by norm_num⟩
      rw [if_neg (by simp), if_pos hmin]
    · obtain ⟨hl, hr⟩ := record_sum_bound (ext_is_coprime_m P d m) SL pq N g hp0 hp1
        hSL hg.2 poss hposs hpossB 0 (fun _ _ _ _ _ => Nat.zero_le _)
      rw [pow_zero] at hr
      refine ⟨record_sum (ext_is_coprime_m P d m) SL (prob_nth_out pq N) g poss, ?_, hl, hr⟩
      rw [if_neg (by simp), if_neg hmin]

/-- Claim C4 (counterexample): with P = 3, D = 2 (wheel = 2), wheel residue
r = 1 coprime to the wheel, and SL = 10, the position g = 1 lies in [1, SL]
but is not coprime on the prev side, so extended_record_high[1][1] is set to
std::nan("") (modelled none) — not a real number in [0, 1). -/
theorem C4_nan_entry :
    Nat.gcd 1 (calc_wheel_d 2) = 1 ∧
    ext_is_coprime_m 3 2 1 1 = false ∧
    prob_extended_record_entry (ext_is_coprime_m 3 2 1) (ext_is_coprime_m 3 2 1) 10 16
      (prob_nth_out (1 / 2) 5) [16] 1 = none := by
  refine ⟨by decide, by decide, ?_⟩
  unfold prob_extended_record_entry
  rw [if_pos (by decide)]

/-- Witness for C4_entry_bounds at the coprime position g = 2 of the same
configuration. -/
theorem C4_entry_bounds_witness :
    (0 < (1 / 2 : ℚ)) ∧ ext_is_coprime_m 3 2 1 2 = true ∧
    ∃ q, prob_extended_record_entry (ext_is_coprime_m 3 2 1) (ext_is_coprime_m 3 2 1)
      10 16 (prob_nth_out (1 / 2) 5) [16] 2 = some q ∧ 0 ≤ q ∧ q < 1 :=
  ⟨by norm_num, by decide,
   (C4_entry_bounds 3 2 1 1 10 16 (1 / 2) 5 [16] 2 (by norm_num) (by norm_num)
     (by decide) (by decide) (by decide) (by decide)).2 (by decide)⟩

end PrimeGapClaims

namespace PrimeGapClaims

/-! ## The unknown-line codec: save_unknowns_method2 and read_unknown_line

The file is modelled as a list of bytes (Nat values).  The reader uses the
formatted extraction operators of C++ streams: >> on int skips whitespace and
parses an optional sign and digits, >> on string skips whitespace and takes a
maximal run of non-whitespace bytes, get() takes one byte. -/

/-- Whitespace bytes of the C locale. -/
def isWsByte (c : Nat) : Bool :=
  c == 32 || c == 9 || c == 10 || c == 11 || c == 12 || c == 13

def isDigitByte (c : Nat) : Bool := decide (48 ≤ c) && decide (c ≤ 57)

def skipWs : List Nat → List Nat
  | [] => []
  | c :: s => if isWsByte c then skipWs s else c :: s

/-- Maximal digit run, accumulating the decimal value. -/
def readDigits : List Nat → Nat → Nat × List Nat
  | [], acc => (acc, [])
  | c :: s, acc =>
    if isDigitByte c then readDigits s (10 * acc + (c - 48)) else (acc, c :: s)

/-- operator>>(istream, int): skip whitespace, optional sign, at least one
digit (none models stream failure; values are small so no overflow). -/
def readInt (s : List Nat) : Option (Int × List Nat) :=
  match skipWs s with
  | [] => none
  | c :: rest =>
    if c == 45 then
      match rest with
      | [] => none
      | c2 :: _ =>
        if isDigitByte c2 then
          some (-(((readDigits rest 0).1 : Int)), (readDigits rest 0).2)
        else none
    else if c == 43 then
      match rest with
      | [] => none
      | c2 :: _ =>
        if isDigitByte c2 then
          some ((((readDigits rest 0).1 : Int)), (readDigits rest 0).2)
        else none
    else if isDigitByte c then
      some ((((readDigits (c :: rest) 0).1 : Int)), (readDigits (c :: rest) 0).2)
    else none

def readTokenGo : List Nat → List Nat × List Nat
  | [] => ([], [])
  | c :: s =>
    if isWsByte c then ([], c :: s)
    else ((c :: (readTokenGo s).1), (readTokenGo s).2)

/-- operator>>(istream, string): skip whitespace then a maximal run of
non-whitespace bytes. -/
def readToken (s : List Nat) : List Nat × List Nat := readTokenGo (skipWs s)

/-- istream::get(): one byte (none at end of file, where the following
assert on the returned byte fails anyway). -/
def getByte : List Nat → Option (Nat × List Nat)
  | [] => none
  | c :: s => some (c, s)

/-- The int to uint32_t conversion done by push_back into the
vector<uint32_t>. -/
def pushU32 (c : Int) : Nat := (c % 4294967296).toNat

/-- The sparse prev-side loop: read one int per unknown, negate it
(c *= -1) and push it. -/
def readSparseNeg : Nat → List Nat → Option (List Nat × List Nat)
  | 0, s => some ([], s)
  | k + 1, s =>
    match readInt s with
    | none => none
    | some (c, s1) =>
      match readSparseNeg k s1 with
      | none => none
      | some (vs, s2) => some (pushU32 (-c) :: vs, s2)

/-- The sparse next-side loop: read one int per unknown and push it. -/
def readSparsePos : Nat → List Nat → Option (List Nat × List Nat)
  | 0, s => some ([], s)
  | k + 1, s =>
    match readInt s with
    | none => none
    | some (c, s1) =>
      match readSparsePos k s1 with
      | none => none
      | some (vs, s2) => some (pushU32 c :: vs, s2)

/-- The RLE loop: per unknown take two bytes a and b and accumulate
c += (a - 48) * 128 + (b - 48), pushing the running value. -/
def readRLE : Nat → Int → List Nat → Option (List Nat × List Nat)
  | 0, _, s => some ([], s)
  | k + 1, c, s =>
    match s with
    | a :: b :: s2 =>
      match readRLE k (c + ((a : Int) - 48) * 128 + ((b : Int) - 48)) s2 with
      | none => none
      | some (vs, s3) =>
        some (pushU32 (c + ((a : Int) - 48) * 128 + ((b : Int) - 48)) :: vs, s3)
    | _ => none

/-- Model of read_unknown_line: parse the header
mi SP ":" SP "-" L SP "+" U SP "|", check the asserts (mtest >= 0, mtest ==
mi, the delimiters, the space after each "|"), then read the two offset
blocks in sparse or RLE form.  Any failed assert or stream failure is none. -/
def read_unknown_line (rle : Bool) (mi : Nat) (s : List Nat) :
    Option (Nat × List Nat × List Nat) :=
  match readInt s with
  | none => none
  | some (mtest, s1) =>
    if mtest < 0 then none
    else if mtest.toNat ≠ mi then none
    else
      match readToken s1 with
      | (t1, s2) =>
        if t1 ≠ [58] then none
        else
          match readInt s2 with
          | none => none
          | some (l0, s3) =>
            match readInt s3 with
            | none => none
            | some (u0, s4) =>
              match readToken s4 with
              | (t2, s5) =>
                if t2 ≠ [124] then none
                else
                  match getByte s5 with
                  | none => none
                  | some (ch, s6) =>
                    if ch ≠ 32 then none
                    else
                      match (if rle then readRLE (-l0).toNat 0 s6
                             else readSparseNeg (-l0).toNat s6) with
                      | none => none
                      | some (lows, s7) =>
                        match readToken s7 with
                        | (t3, s8) =>
                          if t3 ≠ [124] then none
                          else
                            match getByte s8 with
                            | none => none
                            | some (ch2, s9) =>
                              if ch2 ≠ 32 then none
                              else
                                match (if rle then readRLE u0.toNat 0 s9
                                       else readSparsePos u0.toNat s9) with
                                | none => none
                                | some (highs, _) => some (mtest.toNat, lows, highs)

/-- Decimal digits of n as bytes, most significant first (the stream
insertion operator).  The fuel argument (n itself) is always sufficient. -/
def natBytesGo : Nat → Nat → List Nat
  | 0, n => [48 + n % 10]
  | f + 1, n => if n < 10 then [48 + n] else natBytesGo f (n / 10) ++ [48 + n % 10]

def natBytes (n : Nat) : List Nat := natBytesGo n n

/-- The sparse offset block: SP sign digits per unknown offset, in
increasing offset order (the writer scans i = 1..SL). -/
def sparseBlock (sign : Nat) : List Nat → List Nat
  | [] => []
  | x :: xs => 32 :: sign :: (natBytes x ++ sparseBlock sign xs)

/-- The RLE offset block: per offset the two bytes
48 + delta / 128 and 48 + delta mod 128 (as unsigned char, so mod 256),
delta being the difference to the previous offset (starting at 0). -/
def rlePairs : Nat → List Nat → List Nat
  | _, [] => []
  | last, x :: xs =>
    ((48 + (x - last) / 128) % 256) :: ((48 + (x - last) % 128) % 256) :: rlePairs x xs

/-- The byte stream written by save_unknowns_method2 for one line: the
header mi " : -" L " +" U " |", the prev-side block, " |", the next-side
block, and a newline.  In RLE form each block is preceded by one space; in
sparse form each entry carries its own leading space.  The offset lists are
the (increasing) lists of unknown offsets the writer emits. -/
def save_unknowns_line (rle : Bool) (mi : Nat) (low high : List Nat) : List Nat :=
  natBytes mi ++ (32 :: 58 :: 32 :: 45 ::
    (natBytes low.length ++ (32 :: 43 ::
      (natBytes high.length ++ (32 :: 124 ::
        ((if rle then 32 :: rlePairs 0 low else sparseBlock 45 low) ++
          (32 :: 124 ::
            ((if rle then 32 :: rlePairs 0 high else sparseBlock 43 high) ++ [10]))))))))


theorem natBytesGo_digits : ∀ f n c, c ∈ natBytesGo f n → 48 ≤ c ∧ c ≤ 57 := by
  intro f
  induction f with
  | zero =>
    intro n c hc
    simp only [natBytesGo, List.mem_singleton] at hc
    subst hc
    have := Nat.mod_lt n (show 0 < 10 by omega)
    omega
  | succ f ih =>
    intro n c hc
    unfold natBytesGo at hc
    by_cases hn : n < 10
    · rw [if_pos hn] at hc
      simp only [List.mem_singleton] at hc
      omega
    · rw [if_neg hn] at hc
      rcases List.mem_append.mp hc with h | h
      · exact ih _ _ h
      · simp only [List.mem_singleton] at h
        have := Nat.mod_lt n (show 0 < 10 by omega)
        omega

theorem natBytesGo_ne_nil : ∀ f n, natBytesGo f n ≠ [] := by
  intro f
  cases f with
  | zero => intro n h; simp [natBytesGo] at h
  | succ f =>
    intro n h
    unfold natBytesGo at h
    by_cases hn : n < 10
    · rw [if_pos hn] at h; simp at h
    · rw [if_neg hn] at h
      rcases hx : natBytesGo f (n / 10) with _ | ⟨a, b⟩
      · exact natBytesGo_ne_nil f (n / 10) hx
      · rw [hx] at h
        simp at h

theorem natBytesGo_foldl : ∀ f n acc, n ≤ f →
    List.foldl (fun a c => 10 * a + (c - 48)) acc (natBytesGo f n) =
      acc * 10 ^ (natBytesGo f n).length + n := by
  intro f
  induction f with
  | zero =>
    intro n acc hn
    have hn0 : n = 0 := by omega
    subst hn0
    simp [natBytesGo]
    omega
  | succ f ih =>
    intro n acc hn
    unfold natBytesGo
    by_cases h10 : n < 10
    · rw [if_pos h10]
      simp only [List.foldl_cons, List.foldl_nil, List.length_singleton]
      omega
    · rw [if_neg h10]
      have hrec : n / 10 ≤ f := by omega
      rw [List.foldl_append, ih (n / 10) acc hrec]
      simp only [List.foldl_cons, List.foldl_nil, List.length_append,
        List.length_singleton]
      rw [pow_succ, ← Nat.mul_assoc]
      have hd : 48 + n % 10 - 48 = n % 10 := by omega
      rw [hd]
      have hdm : 10 * (n / 10) + n % 10 = n := Nat.div_add_mod n 10
      generalize acc * 10 ^ (natBytesGo f (n / 10)).length = X
      omega

def headNotDigit : List Nat → Bool
  | [] => true
  | c :: _ => !(isDigitByte c)

theorem readDigits_append : ∀ (l : List Nat) (rest : List Nat) (acc : Nat),
    (∀ c ∈ l, isDigitByte c = true) →
    readDigits (l ++ rest) acc =
      readDigits rest (List.foldl (fun a c => 10 * a + (c - 48)) acc l) := by
  intro l
  induction l with
  | nil => intro rest acc _; rfl
  | cons c t ih =>
    intro rest acc hall
    have hc : isDigitByte c = true := hall c (List.mem_cons_self c t)
    simp only [List.cons_append, readDigits, hc, if_true, List.foldl_cons]
    exact ih rest _ (fun x hx => hall x (List.mem_cons_of_mem _ hx))

theorem readDigits_stop (rest : List Nat) (acc : Nat)
    (h : headNotDigit rest = true) : readDigits rest acc = (acc, rest) := by
  cases rest with
  | nil => rfl
  | cons c t =>
    simp only [headNotDigit, Bool.not_eq_true'] at h
    simp [readDigits, h]

theorem readDigits_natBytes (n : Nat) (rest : List Nat)
    (h : headNotDigit rest = true) :
    readDigits (natBytes n ++ rest) 0 = (n, rest) := by
  unfold natBytes
  rw [readDigits_append _ _ _ (fun c hc => by
    have := natBytesGo_digits n n c hc
    simp only [isDigitByte, Bool.and_eq_true, decide_eq_true_eq]
    omega)]
  rw [readDigits_stop rest _ h, natBytesGo_foldl n n 0 (le_refl n)]
  simp

theorem skipWs_not {c : Nat} (s : List Nat) (h : isWsByte c = false) :
    skipWs (c :: s) = c :: s := by
  simp [skipWs, h]

theorem skipWs_ws {c : Nat} (s : List Nat) (h : isWsByte c = true) :
    skipWs (c :: s) = skipWs s := by
  simp [skipWs, h]

theorem digit_not_ws {c : Nat} (h : 48 ≤ c) : isWsByte c = false := by
  simp only [isWsByte, Bool.or_eq_false_iff, beq_eq_false_iff_ne, ne_eq]
  omega

theorem natBytes_cons (n : Nat) :
    ∃ c cs, natBytes n = c :: cs ∧ 48 ≤ c ∧ c ≤ 57 := by
  rcases h : natBytes n with _ | ⟨c, cs⟩
  · exact absurd h (natBytesGo_ne_nil n n)
  · refine ⟨c, cs, rfl, ?_⟩
    have : c ∈ natBytesGo n n := by rw [← natBytes, h]; exact List.mem_cons_self c cs
    exact natBytesGo_digits n n c this


theorem pushU32_natCast (x : Nat) (h : x < 4294967296) : pushU32 ((x : Int)) = x := by
  unfold pushU32
  rw [Int.emod_eq_of_lt (Int.natCast_nonneg x) (by exact_mod_cast h)]
  exact Int.toNat_natCast x

theorem readInt_natBytes (n : Nat) (rest : List Nat) (h : headNotDigit rest = true) :
    readInt (natBytes n ++ rest) = some ((n : Int), rest) := by
  obtain ⟨c, cs, hnb, hc1, hc2⟩ := natBytes_cons n
  unfold readInt
  rw [hnb, List.cons_append, skipWs_not _ (digit_not_ws hc1)]
  have h45 : (c == 45) = false := by simp only [beq_eq_false_iff_ne, ne_eq]; omega
  have h43 : (c == 43) = false := by simp only [beq_eq_false_iff_ne, ne_eq]; omega
  have hcd : isDigitByte c = true := by
    simp only [isDigitByte, Bool.and_eq_true, decide_eq_true_eq]
    omega
  simp only [h45, h43, hcd, Bool.false_eq_true, if_false, if_true]
  rw [← List.cons_append, ← hnb, readDigits_natBytes n rest h]

theorem readInt_ws (c : Nat) (s : List Nat) (h : isWsByte c = true) :
    readInt (c :: s) = readInt s := by
  unfold readInt
  rw [skipWs_ws _ h]

theorem readInt_neg_natBytes (n : Nat) (rest : List Nat)
    (h : headNotDigit rest = true) :
    readInt (45 :: (natBytes n ++ rest)) = some (-(n : Int), rest) := by
  obtain ⟨c, cs, hnb, hc1, hc2⟩ := natBytes_cons n
  unfold readInt
  rw [skipWs_not _ (by decide)]
  have hcd : isDigitByte c = true := by
    simp only [isDigitByte, Bool.and_eq_true, decide_eq_true_eq]
    omega
  rw [hnb, List.cons_append]
  simp only [beq_self_eq_true, if_true, hcd]
  rw [← List.cons_append, ← hnb, readDigits_natBytes n rest h]

theorem readInt_plus_natBytes (n : Nat) (rest : List Nat)
    (h : headNotDigit rest = true) :
    readInt (43 :: (natBytes n ++ rest)) = some ((n : Int), rest) := by
  obtain ⟨c, cs, hnb, hc1, hc2⟩ := natBytes_cons n
  unfold readInt
  rw [skipWs_not _ (by decide)]
  have hcd : isDigitByte c = true := by
    simp only [isDigitByte, Bool.and_eq_true, decide_eq_true_eq]
    omega
  rw [hnb, List.cons_append]
  simp only [show ((43 : Nat) == 45) = false by decide, Bool.false_eq_true, if_false,
    beq_self_eq_true, if_true, hcd]
  rw [← List.cons_append, ← hnb, readDigits_natBytes n rest h]

theorem readTokenGo_single (t c2 : Nat) (rest : List Nat)
    (ht : isWsByte t = false) (hc : isWsByte c2 = true) :
    readTokenGo (t :: c2 :: rest) = ([t], c2 :: rest) := by
  simp [readTokenGo, ht, hc]

theorem readToken_single (t c2 : Nat) (rest : List Nat)
    (ht : isWsByte t = false) (hc : isWsByte c2 = true) :
    readToken (t :: c2 :: rest) = ([t], c2 :: rest) := by
  unfold readToken
  rw [skipWs_not _ ht]
  exact readTokenGo_single t c2 rest ht hc

theorem readToken_ws_single (t c2 : Nat) (rest : List Nat)
    (ht : isWsByte t = false) (hc : isWsByte c2 = true) :
    readToken (32 :: t :: c2 :: rest) = ([t], c2 :: rest) := by
  unfold readToken
  rw [skipWs_ws _ (by decide), skipWs_not _ ht]
  exact readTokenGo_single t c2 rest ht hc


theorem headNotDigit_sparseBlock (sign : Nat) (xs rest : List Nat)
    (h : headNotDigit rest = true) :
    headNotDigit (sparseBlock sign xs ++ rest) = true := by
  cases xs with
  | nil => exact h
  | cons x t => rfl

theorem readSparseNeg_block : ∀ (xs : List Nat) (rest : List Nat),
    (∀ x ∈ xs, x < 4294967296) → headNotDigit rest = true →
    readSparseNeg xs.length (sparseBlock 45 xs ++ rest) = some (xs, rest) := by
  intro xs
  induction xs with
  | nil => intro rest _ _; rfl
  | cons x t ih =>
    intro rest hb hr
    have hxb : x < 4294967296 := hb x (List.mem_cons_self x t)
    have hshape : sparseBlock 45 (x :: t) ++ rest =
        32 :: 45 :: (natBytes x ++ (sparseBlock 45 t ++ rest)) := by
      simp [sparseBlock, List.append_assoc]
    rw [show (x :: t).length = t.length + 1 from rfl, hshape]
    simp only [readSparseNeg,
      readInt_ws 32 _ (by decide),
      readInt_neg_natBytes x _ (headNotDigit_sparseBlock 45 t rest hr),
      ih rest (fun y hy => hb y (List.mem_cons_of_mem _ hy)) hr,
      neg_neg, pushU32_natCast x hxb]

theorem readSparsePos_block : ∀ (xs : List Nat) (rest : List Nat),
    (∀ x ∈ xs, x < 4294967296) → headNotDigit rest = true →
    readSparsePos xs.length (sparseBlock 43 xs ++ rest) = some (xs, rest) := by
  intro xs
  induction xs with
  | nil => intro rest _ _; rfl
  | cons x t ih =>
    intro rest hb hr
    have hxb : x < 4294967296 := hb x (List.mem_cons_self x t)
    have hshape : sparseBlock 43 (x :: t) ++ rest =
        32 :: 43 :: (natBytes x ++ (sparseBlock 43 t ++ rest)) := by
      simp [sparseBlock, List.append_assoc]
    rw [show (x :: t).length = t.length + 1 from rfl, hshape]
    simp only [readSparsePos,
      readInt_ws 32 _ (by decide),
      readInt_plus_natBytes x _ (headNotDigit_sparseBlock 43 t rest hr),
      ih rest (fun y hy => hb y (List.mem_cons_of_mem _ hy)) hr,
      pushU32_natCast x hxb]

theorem readRLE_block : ∀ (xs : List Nat) (last : Nat) (rest : List Nat),
    List.Chain (fun a b => a < b ∧ b - a < 16384) last xs →
    (∀ x ∈ xs, x < 4294967296) →
    readRLE xs.length (last : Int) (rlePairs last xs ++ rest) = some (xs, rest) := by
  intro xs
  induction xs with
  | nil => intro last rest _ _; rfl
  | cons x t ih =>
    intro last rest hch hb
    obtain ⟨hd, hch2⟩ := List.chain_cons.mp hch
    have hxb : x < 4294967296 := hb x (List.mem_cons_self x t)
    have ha : (48 + (x - last) / 128) % 256 = 48 + (x - last) / 128 :=
      Nat.mod_eq_of_lt (by omega)
    have hb2 : (48 + (x - last) % 128) % 256 = 48 + (x - last) % 128 :=
      Nat.mod_eq_of_lt (by omega)
    have hval : (last : Int) + (((48 + (x - last) / 128 : Nat) : Int) - 48) * 128 +
        (((48 + (x - last) % 128 : Nat) : Int) - 48) = (x : Int) := by
      have hnat : last + ((x - last) / 128 * 128 + (x - last) % 128) = x := by omega
      push_cast
      push_cast at hnat
      linarith
    have hshape : rlePairs last (x :: t) ++ rest =
        (48 + (x - last) / 128) :: (48 + (x - last) % 128) ::
          (rlePairs x t ++ rest) := by
      simp [rlePairs, ha, hb2]
    rw [show (x :: t).length = t.length + 1 from rfl, hshape]
    simp only [readRLE, hval,
      ih x rest hch2 (fun y hy => hb y (List.mem_cons_of_mem _ hy)),
      pushU32_natCast x hxb]


theorem isWsByte_32 : isWsByte 32 = true := rfl

theorem isWsByte_58 : isWsByte 58 = false := rfl

theorem isWsByte_124 : isWsByte 124 = false := rfl

theorem headNotDigit_32 (s : List Nat) : headNotDigit (32 :: s) = true := rfl

theorem roundtrip_rle (mi : Nat) (low high : List Nat)
    (hlow : List.Chain (fun a b => a < b ∧ b - a < 16384) 0 low)
    (hhigh : List.Chain (fun a b => a < b ∧ b - a < 16384) 0 high)
    (hlowB : ∀ x ∈ low, x < 4294967296) (hhighB : ∀ x ∈ high, x < 4294967296) :
    read_unknown_line true mi (save_unknowns_line true mi low high) =
      some (mi, low, high) := by
  have hnn : ¬((mi : Int) < 0) := not_lt.mpr (Int.natCast_nonneg mi)
  have hRH : readRLE high.length ((0 : Nat) : Int) (rlePairs 0 high ++ [10]) =
      some (high, [10]) := readRLE_block high 0 [10] hhigh hhighB
  have hRL : readRLE low.length ((0 : Nat) : Int)
      (rlePairs 0 low ++ (32 :: 124 :: 32 :: (rlePairs 0 high ++ [10]))) =
      some (low, 32 :: 124 :: 32 :: (rlePairs 0 high ++ [10])) :=
    readRLE_block low 0 _ hlow hlowB
  rw [Nat.cast_zero] at hRH hRL
  simp only [read_unknown_line, save_unknowns_line, if_true, List.cons_append,
    List.append_assoc, readInt_natBytes, readInt_ws, readInt_neg_natBytes,
    readInt_plus_natBytes, readToken_ws_single, readToken_single, getByte,
    isWsByte_32, isWsByte_58, isWsByte_124, headNotDigit_32, neg_neg,
    Int.toNat_natCast, hnn, hRL, hRH, ne_eq, eq_self_iff_true]
  simp


theorem readSparseNeg_succ_ws (k : Nat) (s : List Nat) :
    readSparseNeg (k + 1) (32 :: s) = readSparseNeg (k + 1) s := by
  simp only [readSparseNeg, readInt_ws 32 s (by decide)]

theorem readSparsePos_succ_ws (k : Nat) (s : List Nat) :
    readSparsePos (k + 1) (32 :: s) = readSparsePos (k + 1) s := by
  simp only [readSparsePos, readInt_ws 32 s (by decide)]

theorem readSparseNeg_tail (x : Nat) (xs rest : List Nat)
    (hb : ∀ y ∈ x :: xs, y < 4294967296) (hr : headNotDigit rest = true) :
    readSparseNeg (xs.length + 1) (45 :: (natBytes x ++ (sparseBlock 45 xs ++ rest))) =
      some (x :: xs, rest) := by
  have h := readSparseNeg_block (x :: xs) rest hb hr
  have hshape : sparseBlock 45 (x :: xs) ++ rest =
      32 :: (45 :: (natBytes x ++ (sparseBlock 45 xs ++ rest))) := by
    simp [sparseBlock, List.append_assoc]
  rw [hshape, show (x :: xs).length = xs.length + 1 from rfl,
    readSparseNeg_succ_ws] at h
  exact h

theorem readSparsePos_tail (y : Nat) (ys rest : List Nat)
    (hb : ∀ x ∈ y :: ys, x < 4294967296) (hr : headNotDigit rest = true) :
    readSparsePos (ys.length + 1) (43 :: (natBytes y ++ (sparseBlock 43 ys ++ rest))) =
      some (y :: ys, rest) := by
  have h := readSparsePos_block (y :: ys) rest hb hr
  have hshape : sparseBlock 43 (y :: ys) ++ rest =
      32 :: (43 :: (natBytes y ++ (sparseBlock 43 ys ++ rest))) := by
    simp [sparseBlock, List.append_assoc]
  rw [hshape, show (y :: ys).length = ys.length + 1 from rfl,
    readSparsePos_succ_ws] at h
  exact h

theorem roundtrip_sparse (mi : Nat) (low : List Nat) (y : Nat) (ys : List Nat)
    (hlowB : ∀ x ∈ low, x < 4294967296) (hhighB : ∀ x ∈ y :: ys, x < 4294967296) :
    read_unknown_line false mi (save_unknowns_line false mi low (y :: ys)) =
      some (mi, low, y :: ys) := by
  have hnn : ¬((mi : Int) < 0) := not_lt.mpr (Int.natCast_nonneg mi)
  have hPos : readSparsePos (ys.length + 1)
      (43 :: (natBytes y ++ (sparseBlock 43 ys ++ [10]))) = some (y :: ys, [10]) :=
    readSparsePos_tail y ys [10] hhighB rfl
  cases low with
  | nil =>
    have hNeg : readSparseNeg 0
        (124 :: 32 :: 43 :: (natBytes y ++ (sparseBlock 43 ys ++ [10]))) =
        some ([], 124 :: 32 :: 43 :: (natBytes y ++ (sparseBlock 43 ys ++ [10]))) := rfl
    simp only [read_unknown_line, save_unknowns_line, Bool.false_eq_true, if_false,
      List.cons_append, List.append_assoc, List.nil_append, sparseBlock,
      readInt_natBytes, readInt_ws,
      readInt_neg_natBytes, readInt_plus_natBytes, readToken_ws_single,
      readToken_single, getByte, isWsByte_32, isWsByte_58, isWsByte_124,
      headNotDigit_32, neg_neg, Int.toNat_natCast, hnn, hNeg, hPos, ne_eq,
      eq_self_iff_true, List.length_nil, List.length_cons, Nat.cast_zero,
      Int.neg_zero, Int.toNat_zero]
    simp
  | cons x xs =>
    have hNeg : readSparseNeg (xs.length + 1)
        (45 :: (natBytes x ++ (sparseBlock 45 xs ++
          (32 :: 124 :: 32 :: 43 :: (natBytes y ++ (sparseBlock 43 ys ++ [10])))))) =
        some (x :: xs, 32 :: 124 :: 32 :: 43 :: (natBytes y ++ (sparseBlock 43 ys ++ [10]))) := by
      have := readSparseNeg_tail x xs
        (32 :: 124 :: 32 :: 43 :: (natBytes y ++ (sparseBlock 43 ys ++ [10])))
        hlowB rfl
      simpa [List.append_assoc] using this
    simp only [read_unknown_line, save_unknowns_line, Bool.false_eq_true, if_false,
      List.cons_append, List.append_assoc, sparseBlock, readInt_natBytes, readInt_ws,
      readInt_neg_natBytes, readInt_plus_natBytes, readToken_ws_single,
      readToken_single, getByte, isWsByte_32, isWsByte_58, isWsByte_124,
      headNotDigit_32, neg_neg, Int.toNat_natCast, hnn, hNeg, hPos, ne_eq,
      eq_self_iff_true, List.length_cons]
    simp


/-- C2: for every unknown line whose offset lists are ascending with successive
deltas below 128^2 (and offsets below 2^32), the RLE encoding round-trips
through read_unknown_line to the identical triple, and the sparse encoding
round-trips as well provided the next-side list is non-empty.  (With an empty
next side the sparse writer emits no byte between the second pipe and the
newline beyond the single separator space, so the reader byte-check fails:
see the counterexample.) -/
theorem C2_roundtrip (mi : Nat) (low high : List Nat)
    (hlow : List.Chain (fun a b => a < b ∧ b - a < 16384) 0 low)
    (hhigh : List.Chain (fun a b => a < b ∧ b - a < 16384) 0 high)
    (hlowB : ∀ x ∈ low, x < 4294967296) (hhighB : ∀ x ∈ high, x < 4294967296) :
    read_unknown_line true mi (save_unknowns_line true mi low high) =
      some (mi, low, high) ∧
    (high ≠ [] →
      read_unknown_line false mi (save_unknowns_line false mi low high) =
        some (mi, low, high)) := by
  refine ⟨roundtrip_rle mi low high hlow hhigh hlowB hhighB, fun hne => ?_⟩
  cases high with
  | nil => exact absurd rfl hne
  | cons y ys => exact roundtrip_sparse mi low y ys hlowB hhighB

/-- C2 counterexample: with an empty next-side list the sparse encoding does
not decode back (the reader returns failure where the writer produced the
line), while the RLE encoding of the same line does. -/
theorem C2_sparse_empty_next_fails :
    read_unknown_line false 0 (save_unknowns_line false 0 [] []) = none ∧
    read_unknown_line true 0 (save_unknowns_line true 0 [] []) = some (0, [], []) := by
  decide

/-- C2 witness: the round-trip theorem instantiated at mi = 3,
prev offsets [1, 4], next offsets [2]. -/
theorem C2_roundtrip_witness :
    (List.Chain (fun a b => a < b ∧ b - a < 16384) 0 [1, 4] ∧
      List.Chain (fun a b => a < b ∧ b - a < 16384) 0 [2] ∧
      (∀ x ∈ [1, 4], x < 4294967296) ∧ (∀ x ∈ [2], x < 4294967296)) ∧
    (read_unknown_line true 3 (save_unknowns_line true 3 [1, 4] [2]) =
        some (3, [1, 4], [2]) ∧
      ([2] ≠ ([] : List Nat) →
        read_unknown_line false 3 (save_unknowns_line false 3 [1, 4] [2]) =
          some (3, [1, 4], [2]))) :=
  ⟨⟨by norm_num [List.chain_cons], by norm_num [List.chain_cons], by decide, by decide⟩,
    C2_roundtrip 3 [1, 4] [2] (by norm_num [List.chain_cons])
      (by norm_num [List.chain_cons]) (by decide) (by decide)⟩

end PrimeGapClaims
